import Mathlib

/-!
Verification of the `on-the-gpu` launcher (`src/main.rs`).

The development shallowly embeds the program: byte streams are `List Nat`,
fallible I/O returns `Except`, and the async supervisor `run_game_with_logs`
together with its `tee` loop is modelled as a pure function from an
environment (the outcomes the OS would deliver: pipe reads, write failures,
spawn/wait results) to a result plus an event trace.  Every definition is
translated from the Rust source; parameters such as `home`, `nowRfc` or
`cwdRepr` stand for the ambient values (`$HOME`, `Local::now().to_rfc3339()`,
`format!("{:?}", current_dir())`) the corresponding source line reads.
-/

/-- Bytes of a stream, one `Nat` per byte (original: `&[u8]` / `Vec<u8>`). -/
abbrev Bytes := List Nat

/-- An I/O error code (original: `std::io::Error` / `anyhow::Error`). -/
abbrev IoErr := Nat

/-- The `errno`-style code we use for the exclusive-create collision
(`create_new(true)` failing because the file already exists). -/
def eexist : IoErr := 17

/-- Embeds `enum GpuMode` from `src/main.rs` (lines 28-41). -/
inductive GpuMode where
  | none
  | nvPrimeRun
  | pvkrun
  | primusrun
  | optirun
deriving DecidableEq

/-- Embeds `enum ExtraEnv` from `src/main.rs` (lines 43-47). -/
inductive ExtraEnv where
  | none
  | nvPrimeRun
deriving DecidableEq

/-- Embeds `impl IntoIterator for &ExtraEnv` (lines 49-64): the list of
environment variable pairs each variant yields. -/
def ExtraEnv.pairs : ExtraEnv → List (String × String)
  | ExtraEnv.none => []
  | ExtraEnv.nvPrimeRun =>
      [("__NV_PRIME_RENDER_OFFLOAD", "1"),
       ("__VK_LAYER_NV_optimus", "NVIDIA_only"),
       ("__GLX_VENDOR_LIBRARY_NAME", "nvidia")]

/-- Embeds `args.gpu.unwrap_or(GpuMode::NvPrimeRun)` (line 75): the mode
used when `--gpu` is omitted. -/
def effectiveGpuMode (gpu : Option GpuMode) : GpuMode :=
  gpu.getD GpuMode.nvPrimeRun

/-- Embeds the `match gpu_mode` block of `main` (lines 77-100): from the
offload mode and the requested command, the final argv and extra
environment. -/
def resolveCmd (mode : GpuMode) (command : List String) : List String × ExtraEnv :=
  match mode with
  | GpuMode.none => (command, ExtraEnv.none)
  | GpuMode.nvPrimeRun => (command, ExtraEnv.nvPrimeRun)
  | GpuMode.pvkrun => ("pvkrun" :: command, ExtraEnv.none)
  | GpuMode.primusrun => ("primusrun" :: command, ExtraEnv.none)
  | GpuMode.optirun => ("optirun" :: command, ExtraEnv.none)

/-- Rust's `{:?}` formatting of a string-like value as used by `print_cmd`
for the argv elements: the value surrounded by double quotes, with quotes
and backslashes backslash-escaped. -/
def rustDebugStr (s : String) : String :=
  String.mk ('"' :: ((s.data.map fun ch =>
    if ch = '"' ∨ ch = '\\' then ['\\', ch] else [ch]).flatten ++ ['"']))

/-- Embeds `print_cmd` (lines 145-166): the human-readable banner written
to the live stream and to the log.  `cwdRepr` stands for the formatted
`format!("{:?}", std::env::current_dir())` value that line 151 prints.
The second match arm reproduces the source's literal `"Envionment:"`. -/
def print_cmd (cwdRepr : String) (command : List String) (extraEnv : ExtraEnv) : String :=
  "══ Start ══\n" ++
  ("CWD: " ++ cwdRepr ++ "\n") ++
  (match extraEnv with
   | ExtraEnv.none => "Environment: (same)\n"
   | e => "Envionment:\n" ++
       String.join ((ExtraEnv.pairs e).map fun kv => "  " ++ kv.1 ++ "=" ++ kv.2 ++ "\n")) ++
  "Arguments:\n" ++
  String.join (command.enum.map fun ia =>
    "  argv[" ++ toString ia.1 ++ "] = " ++ rustDebugStr ia.2 ++ "\n")

/-- Byte serialization of a string (one entry per character). -/
def strBytes (s : String) : Bytes := s.data.map Char.toNat

/-- Embeds `get_logs_dir` (lines 174-179); `home` is the ambient `$HOME`. -/
def get_logs_dir (home : String) : String :=
  home ++ "/games/logs"

/-- Embeds `build_log_filename` (lines 181-192); `nowRfc` is the ambient
`chrono::offset::Local::now().to_rfc3339()` value. -/
def build_log_filename (home base_name nowRfc : String) (overridden_logs_dir : Option String) : String :=
  let filename := base_name ++ "_" ++ nowRfc ++ ".log.zstd"
  match overridden_logs_dir with
  | Option.some p => p ++ "/" ++ filename
  | Option.none => get_logs_dir home ++ "/" ++ filename

/-- Embeds `File::options().create_new(true).write(true).open(path)`
(lines 202-206): exclusive creation against the set of existing paths.  On
success the path is added to the filesystem; on collision the filesystem is
unchanged and the open fails. -/
def openCreateNew (existing : List String) (path : String) : Except IoErr (List String) :=
  if path ∈ existing then Except.error eexist else Except.ok (path :: existing)

/-- Models the external zstd encoder's round-trip contract: a finalized
stream decompresses to exactly the bytes written into the encoder, an
unfinalized stream (trailer never flushed) is not a valid zstd file. -/
def zstdDecompress (finalized : Bool) (written : Bytes) : Option Bytes :=
  if finalized then Option.some written else Option.none

/-- The state of one output sink: the bytes it has received so far and the
number of `write_all` calls made on it. -/
structure SinkSt where
  received : Bytes
  calls : Nat
deriving DecidableEq

/-- One `write_all(chunk)` call on a sink.  `fail` is the sink's failure
schedule: `fail n c = some e` means the `n`-th write call, writing chunk
`c`, fails with `e`.  On success the chunk is appended to the sink. -/
def writeStep (fail : Nat → Bytes → Option IoErr) (s : SinkSt) (c : Bytes) :
    Except IoErr SinkSt :=
  match fail s.calls c with
  | some e => Except.error e
  | none => Except.ok ⟨s.received ++ c, s.calls + 1⟩

/-- Events of a `run_game_with_logs` execution, in program order.
`pipeCreate` is `tokio_pipe::pipe()` handing the supervisor the write end
`w`; `dupW` is one `w_fd.try_clone_to_owned()`; `spawn` is the
`Command::spawn` statement, which transfers both duplicates into the child
and closes the parent-side copies when the statement's temporaries drop;
`closeW` is the explicit `drop(w)`; `read`/`writeA`/`writeB` are the tee
loop's pipe read and the two (always both issued) sink writes; `shutA` /
`shutB` are `a.shutdown()` / `b.shutdown()` — `shutB` is the log sink's
finalize (zstd trailer flush). -/
inductive Ev where
  | openLog
  | wStderr (bs : Bytes)
  | wLog (bs : Bytes)
  | pipeCreate
  | dupW
  | spawn
  | closeW
  | read (c : Bytes)
  | readFail
  | writeA (c : Bytes)
  | writeB (c : Bytes)
  | shutA
  | shutB
  | waitChild
  | dropR
  | dropChild
deriving DecidableEq

/-- The buffer size of the tee loop (`let mut buf = [0u8; 1024]`, line 262). -/
def teeBufSize : Nat := 1024

/-- Embeds the code after `tee`'s read loop (lines 272-274):
`a.shutdown().await?; b.shutdown().await?`.  `sa`/`sb` are the outcomes of
the two shutdown calls; a failing `a.shutdown()` prevents `b.shutdown()`
from being called. -/
def teeFinish (sa sb : Option IoErr) (a b : SinkSt) :
    Except IoErr (SinkSt × SinkSt) × List Ev :=
  match sa with
  | some e => (Except.error e, [Ev.shutA])
  | none =>
    match sb with
    | some e => (Except.error e, [Ev.shutA, Ev.shutB])
    | none => (Except.ok (a, b), [Ev.shutA, Ev.shutB])

/-- Embeds `tee` (lines 256-275).  The source is the list of outcomes of
successive pipe reads: `Except.ok c` is a read returning chunk `c`,
`Except.error e` a failing read; an exhausted list or an empty chunk is the
`len == 0` end-of-stream case.  Each iteration issues both writes
(`tokio::join!`), then checks `a`'s result first (`a_write?; b_write?`).
Returns the tee result together with the trace of events. -/
def tee (fa fb : Nat → Bytes → Option IoErr) (sa sb : Option IoErr)
    (src : List (Except IoErr Bytes)) (a b : SinkSt) :
    Except IoErr (SinkSt × SinkSt) × List Ev :=
  match src with
  | [] => teeFinish sa sb a b
  | Except.error e :: _ => (Except.error e, [Ev.readFail])
  | Except.ok c :: rest =>
    if c.length = 0 then teeFinish sa sb a b
    else
      match writeStep fa a c, writeStep fb b c with
      | Except.ok a2, Except.ok b2 =>
        ((tee fa fb sa sb rest a2 b2).1,
          Ev.read c :: Ev.writeA c :: Ev.writeB c :: (tee fa fb sa sb rest a2 b2).2)
      | Except.error e, _ =>
        (Except.error e, [Ev.read c, Ev.writeA c, Ev.writeB c])
      | Except.ok _, Except.error e =>
        (Except.error e, [Ev.read c, Ev.writeA c, Ev.writeB c])

/-- Environment of one logging-enabled run: the ambient values the code
reads and the outcomes the OS delivers for each fallible operation.
`faSched` is the failure schedule of the live stderr stream (tee sink `a`),
`fbSched` that of the log sink (tee sink `b`); both also govern the banner
writes made before the tee, with shared call counters, exactly as the code
reuses the same two sinks. -/
structure RunEnv where
  home : String
  gameName : String
  command : List String
  extraEnv : ExtraEnv
  nowRfc : String
  existingFiles : List String
  cwdRepr : String
  pipeRes : Option IoErr
  spawnRes : Option IoErr
  src : List (Except IoErr Bytes)
  faSched : Nat → Bytes → Option IoErr
  fbSched : Nat → Bytes → Option IoErr
  shutARes : Option IoErr
  shutBRes : Option IoErr
  waitRes : Option IoErr

/-- The banner bytes written by lines 212-220: `print_cmd` rendered into
the `intro` buffer. -/
def bannerBytes (env : RunEnv) : Bytes :=
  strBytes (print_cmd env.cwdRepr env.command env.extraEnv)

/-- The `b"Game started.\n"` chunk written to the log at line 247. -/
def gsBytes : Bytes := strBytes "Game started.\n"

/-- The events of a run up to and including `drop(w)` (line 245): log open,
the two banner writes, pipe creation, the two write-end duplications, the
spawn statement, the explicit close of `w`. -/
def preEvents (env : RunEnv) : List Ev :=
  [Ev.openLog, Ev.wStderr (bannerBytes env), Ev.wLog (bannerBytes env),
   Ev.pipeCreate, Ev.dupW, Ev.dupW, Ev.spawn, Ev.closeW]

/-- The events up to and including the `Game started.` log write (line 247). -/
def preGS (env : RunEnv) : List Ev :=
  preEvents env ++ [Ev.wLog gsBytes]

/-- Result of a modelled `run_game_with_logs` execution: the function's
return value, the event trace, and (once the tee has completed) the final
states of the two sinks. -/
structure RunOut where
  res : Except IoErr Unit
  trace : List Ev
  sinks : Option (SinkSt × SinkSt)

/-- Embeds `run_game_with_logs` (lines 194-254): open the log file with
exclusive creation, write the banner to stderr then to the log, create the
pipe, duplicate its write end twice, spawn the child, drop `w`, write
`Game started.`, run the tee, wait for the child, drop the read end and the
child handle.  Every `?` is an early return carrying the events produced so
far. -/
def run_game_with_logs (env : RunEnv) : RunOut :=
  match openCreateNew env.existingFiles
      (build_log_filename env.home env.gameName env.nowRfc Option.none) with
  | Except.error e => ⟨Except.error e, [Ev.openLog], Option.none⟩
  | Except.ok _ =>
    match writeStep env.faSched ⟨[], 0⟩ (bannerBytes env) with
    | Except.error e =>
        ⟨Except.error e, [Ev.openLog, Ev.wStderr (bannerBytes env)], Option.none⟩
    | Except.ok a1 =>
      match writeStep env.fbSched ⟨[], 0⟩ (bannerBytes env) with
      | Except.error e =>
          ⟨Except.error e,
           [Ev.openLog, Ev.wStderr (bannerBytes env), Ev.wLog (bannerBytes env)],
           Option.none⟩
      | Except.ok b1 =>
        match env.pipeRes with
        | some e =>
            ⟨Except.error e,
             [Ev.openLog, Ev.wStderr (bannerBytes env), Ev.wLog (bannerBytes env),
              Ev.pipeCreate],
             Option.none⟩
        | none =>
          match env.spawnRes with
          | some e =>
              ⟨Except.error e,
               [Ev.openLog, Ev.wStderr (bannerBytes env), Ev.wLog (bannerBytes env),
                Ev.pipeCreate, Ev.dupW, Ev.dupW, Ev.spawn],
               Option.none⟩
          | none =>
            match writeStep env.fbSched b1 gsBytes with
            | Except.error e => ⟨Except.error e, preGS env, Option.none⟩
            | Except.ok b2 =>
              match tee env.faSched env.fbSched env.shutARes env.shutBRes env.src a1 b2 with
              | (Except.error e, teeTr) =>
                  ⟨Except.error e, preGS env ++ teeTr, Option.none⟩
              | (Except.ok (aF, bF), teeTr) =>
                match env.waitRes with
                | some e =>
                    ⟨Except.error e, preGS env ++ (teeTr ++ [Ev.waitChild]),
                     Option.some (aF, bF)⟩
                | none =>
                    ⟨Except.ok (), preGS env ++ (teeTr ++ [Ev.waitChild, Ev.dropR, Ev.dropChild]),
                     Option.some (aF, bF)⟩

/-- Change to the number of pipe write-end handles the supervisor holds:
`pipeCreate` hands it `w` (+1), each `dupW` adds a duplicate (+1), the
`spawn` statement transfers both duplicates into the child and drops the
parent-side copies (-2), `closeW` is `drop(w)` (-1). -/
def wDelta : Ev → Int
  | Ev.pipeCreate => 1
  | Ev.dupW => 1
  | Ev.spawn => -2
  | Ev.closeW => -1
  | _ => 0

/-- Number of pipe write-end handles the supervisor holds after a trace. -/
def writeHeld (tr : List Ev) : Int :=
  (tr.map wDelta).sum

/-- A pipe reports end-of-stream exactly when no write-end handle is open
anywhere: neither in the supervisor nor in the child. -/
def pipeEofObservable (supervisorHandles childHandles : Int) : Prop :=
  supervisorHandles + childHandles = 0

/-- Is this event a pipe read? -/
def isRead : Ev → Bool
  | Ev.read _ => true
  | _ => false

/-- Is this event a write to sink `a` (the live stream)? -/
def isWA : Ev → Bool
  | Ev.writeA _ => true
  | _ => false

/-- Is this event a write to sink `b` (the log sink)? -/
def isWB : Ev → Bool
  | Ev.writeB _ => true
  | _ => false

/-- Is this event the log sink's finalize (`b.shutdown()`)? -/
def isShutB : Ev → Bool
  | Ev.shutB => true
  | _ => false

/-- Is this event part of the tee's read/write loop body? -/
def isRW (e : Ev) : Bool :=
  isRead e || isWA e || isWB e

/-- Count the events satisfying `p`. -/
def countEv (p : Ev → Bool) (tr : List Ev) : Nat :=
  (tr.filter p).length

/-- Index of the first occurrence of `e` in a trace. -/
def posOf (e : Ev) : List Ev → Nat
  | [] => 0
  | x :: xs => if x = e then 0 else posOf e xs + 1

/-- The bytes received by the log sink at the end of a run (meaningful once
the tee has completed). -/
def logReceived (o : RunOut) : Bytes :=
  match o.sinks with
  | Option.some (_, b) => b.received
  | Option.none => []

/-- Shapes of traces the tee loop can produce: a shutdown tail, a failed
read, a failed iteration (both writes still attempted), or a complete
iteration followed by more trace. -/
inductive TeeTrace : List Ev → Prop where
  | fin1 : TeeTrace [Ev.shutA]
  | fin2 : TeeTrace [Ev.shutA, Ev.shutB]
  | rfail : TeeTrace [Ev.readFail]
  | werr (c : Bytes) : TeeTrace [Ev.read c, Ev.writeA c, Ev.writeB c]
  | step (c : Bytes) (tr : List Ev) : TeeTrace tr →
      TeeTrace (Ev.read c :: Ev.writeA c :: Ev.writeB c :: tr)

/-- A fully successful concrete run: command `game`, no extra env, the
child writes the single byte `A` (65) and exits; no operation fails. -/
def envW : RunEnv :=
  ⟨"/h", "g", ["game"], ExtraEnv.none, "T", [], "Ok(\"/\")",
   none, none, [Except.ok [65]], fun _ _ => none, fun _ _ => none,
   none, none, none⟩

/-- The same run as `envW` except that the log sink fails its first
relayed write (write call index 2, after the banner and `Game started.`
writes) with error code 5. -/
def envErr : RunEnv :=
  ⟨"/h", "g", ["game"], ExtraEnv.none, "T", [], "Ok(\"/\")",
   none, none, [Except.ok [65]], fun _ _ => none,
   fun n _ => if 2 ≤ n then some 5 else none,
   none, none, none⟩

/-- The events of the `envW` run that precede its only pipe read. -/
def preW : List Ev := preGS envW

/-- The events of the `envW` run that follow its only pipe read. -/
def tailW : List Ev :=
  [Ev.writeA [65], Ev.writeB [65], Ev.shutA, Ev.shutB,
   Ev.waitChild, Ev.dropR, Ev.dropChild]

/-- The failure schedule of a sink that never fails. -/
def noFail : Nat → Bytes → Option IoErr := fun _ _ => none

/-- The failure schedule of a sink whose every write fails with error 7. -/
def failASched : Nat → Bytes → Option IoErr := fun _ _ => some 7

theorem append_split_right {α : Type} (A B t₁ t₂ : List α) (x : α)
    (h : A ++ B = t₁ ++ x :: t₂) (hx : x ∉ A) :
    ∃ B₁, t₁ = A ++ B₁ ∧ B = B₁ ++ x :: t₂ := by
  induction A generalizing t₁ with
  | nil => exact ⟨t₁, by simp, by simpa using h⟩
  | cons a A ih =>
    rcases t₁ with _ | ⟨y, t₁⟩
    · simp only [List.nil_append, List.cons_append, List.cons.injEq] at h
      exact absurd (h.1 ▸ List.mem_cons_self a A) hx
    · simp only [List.cons_append, List.cons.injEq] at h
      obtain ⟨rfl, h⟩ := h
      obtain ⟨B₁, rfl, hB⟩ := ih t₁ h (fun hm => hx (List.mem_cons_of_mem _ hm))
      exact ⟨B₁, by simp, hB⟩

theorem append_split_left {α : Type} (A B u v : List α) (x : α)
    (h : A ++ B = u ++ x :: v) (hx : x ∉ B) :
    ∃ A₂, A = u ++ x :: A₂ := by
  induction A generalizing u with
  | nil =>
    simp only [List.nil_append] at h
    exact absurd (h ▸ List.mem_append_right u (List.mem_cons_self x v)) hx
  | cons a A ih =>
    rcases u with _ | ⟨y, u⟩
    · simp only [List.cons_append, List.nil_append, List.cons.injEq] at h
      exact ⟨A, by rw [h.1]; simp⟩
    · simp only [List.cons_append, List.cons.injEq] at h
      obtain ⟨rfl, h⟩ := h
      obtain ⟨A₂, hA⟩ := ih u h
      exact ⟨A₂, by rw [hA]; simp⟩

theorem writeHeld_append (l m : List Ev) :
    writeHeld (l ++ m) = writeHeld l + writeHeld m := by
  simp [writeHeld]

theorem writeHeld_zero_of_all (l : List Ev) (h : ∀ e ∈ l, wDelta e = 0) :
    writeHeld l = 0 := by
  induction l with
  | nil => simp [writeHeld]
  | cons e l ih =>
    have := h e (List.mem_cons_self e l)
    simp [writeHeld, this]
    have := ih (fun e' he' => h e' (List.mem_cons_of_mem _ he'))
    simpa [writeHeld] using this

theorem tee_trace_shape (fa fb : Nat → Bytes → Option IoErr) (sa sb : Option IoErr) :
    ∀ (src : List (Except IoErr Bytes)) (a b : SinkSt),
      TeeTrace (tee fa fb sa sb src a b).2 := by
  intro src
  induction src with
  | nil =>
    intro a b
    cases sa <;> cases sb <;> simp only [tee, teeFinish] <;>
      first | exact TeeTrace.fin1 | exact TeeTrace.fin2
  | cons r rest ih =>
    intro a b
    rcases r with e | c
    · exact TeeTrace.rfail
    · by_cases hc : c.length = 0
      · simp only [tee, hc, if_true]
        cases hsa : sa <;> cases hsb : sb <;> simp [teeFinish] <;>
          first | exact TeeTrace.fin1 | exact TeeTrace.fin2
      · rcases h1 : writeStep fa a c with e1 | a2 <;>
          rcases h2 : writeStep fb b c with e2 | b2 <;>
            simp only [tee, hc, if_false, h1, h2]
        · exact TeeTrace.werr c
        · exact TeeTrace.werr c
        · exact TeeTrace.werr c
        · exact TeeTrace.step c _ (ih a2 b2)

theorem writeStep_noFail (s : SinkSt) (c : Bytes) :
    writeStep noFail s c = Except.ok ⟨s.received ++ c, s.calls + 1⟩ := rfl

theorem writeStep_ok_eq (fail : Nat → Bytes → Option IoErr) (s s' : SinkSt) (c : Bytes)
    (h : writeStep fail s c = Except.ok s') :
    s' = ⟨s.received ++ c, s.calls + 1⟩ := by
  unfold writeStep at h
  rcases hf : fail s.calls c with _ | e <;> rw [hf] at h
  · exact (Except.ok.inj h).symm
  · exact Except.noConfusion h

theorem read_mem_of_split (tr t₁ t₂ : List Ev) (c : Bytes)
    (h : tr = t₁ ++ Ev.read c :: t₂) : Ev.read c ∈ tr := by
  rw [h]
  exact List.mem_append_right t₁ (List.mem_cons_self _ _)

theorem tee_trace_wdelta (tr : List Ev) (ht : TeeTrace tr) :
    ∀ e ∈ tr, wDelta e = 0 := by
  induction ht with
  | fin1 => intro e he; simp at he; simp [he, wDelta]
  | fin2 =>
    intro e he; simp at he
    rcases he with rfl | rfl <;> simp [wDelta]
  | rfail => intro e he; simp at he; simp [he, wDelta]
  | werr c0 =>
    intro e he; simp at he
    rcases he with rfl | rfl | rfl <;> simp [wDelta]
  | step c0 tr0 ht0 ih =>
    intro e he; simp at he
    rcases he with rfl | rfl | rfl | hmem
    · simp [wDelta]
    · simp [wDelta]
    · simp [wDelta]
    · exact ih e hmem

theorem tee_balanced (tr : List Ev) (ht : TeeTrace tr) :
    ∀ t₁ c t₂, tr = t₁ ++ Ev.read c :: t₂ →
      countEv isRead t₁ = countEv isWA t₁ ∧ countEv isRead t₁ = countEv isWB t₁ := by
  induction ht with
  | fin1 =>
    intro t₁ c t₂ h
    have := read_mem_of_split _ _ _ _ h
    simp at this
  | fin2 =>
    intro t₁ c t₂ h
    have := read_mem_of_split _ _ _ _ h
    simp at this
  | rfail =>
    intro t₁ c t₂ h
    have := read_mem_of_split _ _ _ _ h
    simp at this
  | werr c0 =>
    intro t₁ c t₂ h
    rcases t₁ with _ | ⟨x1, t₁⟩
    · simp [countEv]
    rcases t₁ with _ | ⟨x2, t₁⟩
    · simp only [List.cons_append, List.nil_append, List.cons.injEq] at h
      exact absurd h.2.1 (by simp)
    rcases t₁ with _ | ⟨x3, t₁⟩
    · simp only [List.cons_append, List.nil_append, List.cons.injEq] at h
      exact absurd h.2.2.1 (by simp)
    · simp only [List.cons_append, List.cons.injEq] at h
      exact absurd h.2.2.2 (by simp)
  | step c0 tr0 ht0 ih =>
    intro t₁ c t₂ h
    rcases t₁ with _ | ⟨x1, t₁⟩
    · simp [countEv]
    rcases t₁ with _ | ⟨x2, t₁⟩
    · simp only [List.cons_append, List.nil_append, List.cons.injEq] at h
      exact absurd h.2.1 (by simp)
    rcases t₁ with _ | ⟨x3, t₁⟩
    · simp only [List.cons_append, List.nil_append, List.cons.injEq] at h
      exact absurd h.2.2.1 (by simp)
    · simp only [List.cons_append, List.cons.injEq] at h
      obtain ⟨rfl, rfl, rfl, h⟩ := h
      obtain ⟨h1, h2⟩ := ih t₁ c t₂ h
      constructor <;>
        simp only [countEv, List.filter_cons, isRead, isWA, isWB] at h1 h2 ⊢ <;>
        simp <;> omega

theorem tee_read_mem_src (fa fb : Nat → Bytes → Option IoErr) (sa sb : Option IoErr) :
    ∀ (src : List (Except IoErr Bytes)) (a b : SinkSt) (c : Bytes),
      Ev.read c ∈ (tee fa fb sa sb src a b).2 → Except.ok c ∈ src := by
  intro src
  induction src with
  | nil =>
    intro a b c h
    cases sa <;> cases sb <;> simp only [tee, teeFinish] at h <;> simp at h
  | cons r rest ih =>
    intro a b c h
    rcases r with e | c0
    · simp only [tee] at h
      simp at h
    · by_cases hc : c0.length = 0
      · simp only [tee, if_pos hc] at h
        cases sa <;> cases sb <;> simp only [teeFinish] at h <;> simp at h
      · rcases h1 : writeStep fa a c0 with e1 | a2
        · simp only [tee, if_neg hc, h1] at h
          simp at h
          simp [h]
        · rcases h2 : writeStep fb b c0 with e2 | b2
          · simp only [tee, if_neg hc, h1, h2] at h
            simp at h
            simp [h]
          · simp only [tee, if_neg hc, h1, h2] at h
            simp at h
            rcases h with rfl | hmem
            · exact List.mem_cons_self _ _
            · exact List.mem_cons_of_mem _ (ih a2 b2 c hmem)

theorem tee_success_shape (fa fb : Nat → Bytes → Option IoErr) (sa sb : Option IoErr) :
    ∀ (src : List (Except IoErr Bytes)) (a b : SinkSt) (x : SinkSt × SinkSt) (tr : List Ev),
      tee fa fb sa sb src a b = (Except.ok x, tr) →
      ∃ body, tr = body ++ [Ev.shutA, Ev.shutB] ∧ ∀ e ∈ body, isRW e = true := by
  intro src
  induction src with
  | nil =>
    intro a b x tr h
    cases sa with
    | some e => simp [tee, teeFinish] at h
    | none =>
      cases sb with
      | some e => simp [tee, teeFinish] at h
      | none =>
        simp only [tee, teeFinish, Prod.mk.injEq] at h
        exact ⟨[], by simp [← h.2], by simp⟩
  | cons r rest ih =>
    intro a b x tr h
    rcases r with e | c0
    · simp [tee] at h
    · by_cases hc : c0.length = 0
      · simp only [tee, if_pos hc] at h
        cases sa with
        | some e => simp [teeFinish] at h
        | none =>
          cases sb with
          | some e => simp [teeFinish] at h
          | none =>
            simp only [teeFinish, Prod.mk.injEq] at h
            exact ⟨[], by simp [← h.2], by simp⟩
      · have hc' : ¬ (c0 = []) := by simpa [List.length_eq_zero] using hc
        rcases h1 : writeStep fa a c0 with e1 | a2
        · simp [tee, hc', h1] at h
        · rcases h2 : writeStep fb b c0 with e2 | b2
          · simp [tee, hc', h1, h2] at h
          · rcases hrec : tee fa fb sa sb rest a2 b2 with ⟨res2, tr2⟩
            simp only [tee, if_neg hc, h1, h2, hrec, Prod.mk.injEq] at h
            obtain ⟨hres, htr⟩ := h
            obtain ⟨body, hb, hm⟩ := ih a2 b2 x tr2 (by rw [hrec, hres])
            refine ⟨Ev.read c0 :: Ev.writeA c0 :: Ev.writeB c0 :: body, ?_, ?_⟩
            · rw [← htr, hb]
              simp
            · intro e he
              simp at he
              rcases he with rfl | rfl | rfl | hmem
              · simp [isRW, isRead]
              · simp [isRW, isWA]
              · simp [isRW, isWB]
              · exact hm e hmem

theorem tee_success_content (fa fb : Nat → Bytes → Option IoErr) (sa sb : Option IoErr) :
    ∀ (chunks : List Bytes) (a b aF bF : SinkSt) (tr : List Ev),
      (∀ c ∈ chunks, c ≠ []) →
      tee fa fb sa sb (chunks.map Except.ok) a b = (Except.ok (aF, bF), tr) →
      aF.received = a.received ++ chunks.flatten ∧
      bF.received = b.received ++ chunks.flatten := by
  intro chunks
  induction chunks with
  | nil =>
    intro a b aF bF tr hne h
    cases sa with
    | some e => simp [tee, teeFinish] at h
    | none =>
      cases sb with
      | some e => simp [tee, teeFinish] at h
      | none =>
        simp only [List.map_nil, tee, teeFinish, Prod.mk.injEq, Except.ok.injEq,
          Prod.mk.injEq] at h
        obtain ⟨⟨rfl, rfl⟩, -⟩ := h
        simp
  | cons c0 rest ih =>
    intro a b aF bF tr hne h
    have hc : ¬ c0.length = 0 := by
      simpa [List.length_eq_zero] using hne c0 (List.mem_cons_self _ _)
    have hc' : ¬ (c0 = []) := by simpa [List.length_eq_zero] using hc
    rcases h1 : writeStep fa a c0 with e1 | a2
    · simp [tee, hc', h1] at h
    · rcases h2 : writeStep fb b c0 with e2 | b2
      · simp [tee, hc', h1, h2] at h
      · rcases hrec : tee fa fb sa sb (rest.map Except.ok) a2 b2 with ⟨res2, tr2⟩
        simp only [List.map_cons, tee, if_neg hc, h1, h2, hrec, Prod.mk.injEq] at h
        obtain ⟨hres, -⟩ := h
        have hwa := writeStep_ok_eq _ _ _ _ h1
        have hwb := writeStep_ok_eq _ _ _ _ h2
        obtain ⟨ha, hb⟩ := ih a2 b2 aF bF tr2
          (fun c hc' => hne c (List.mem_cons_of_mem _ hc'))
          (by rw [hrec, hres])
        subst hwa hwb
        constructor <;> simp [ha, hb]

theorem tee_nofail_ok :
    ∀ (chunks : List Bytes) (a b : SinkSt),
      ∃ out tr, tee noFail noFail none none (chunks.map Except.ok) a b
        = (Except.ok out, tr) := by
  intro chunks
  induction chunks with
  | nil => intro a b; exact ⟨(a, b), [Ev.shutA, Ev.shutB], rfl⟩
  | cons c0 rest ih =>
    intro a b
    by_cases hc : c0.length = 0
    · have hc' : c0 = [] := List.length_eq_zero.mp hc
      exact ⟨(a, b), [Ev.shutA, Ev.shutB], by simp [tee, hc', teeFinish]⟩
    · have hc' : ¬ (c0 = []) := by simpa [List.length_eq_zero] using hc
      obtain ⟨out, tr, hrec⟩ :=
        ih ⟨a.received ++ c0, a.calls + 1⟩ ⟨b.received ++ c0, b.calls + 1⟩
      exact ⟨out, Ev.read c0 :: Ev.writeA c0 :: Ev.writeB c0 :: tr,
        by simp [tee, hc', writeStep_noFail, hrec]⟩

/-- C1 — Tee completeness: for every finite input delivered by the source
in arbitrary (non-empty) chunk sizes, `tee` writes to each of the two sinks
exactly the input bytes, in order, with no byte skipped, duplicated or
reordered, and returns success at end-of-stream. -/
theorem tee_completeness (chunks : List Bytes) (h : ∀ c ∈ chunks, c ≠ []) :
    ∃ aF bF tr,
      tee noFail noFail none none (chunks.map Except.ok) ⟨[], 0⟩ ⟨[], 0⟩
        = (Except.ok (aF, bF), tr) ∧
      aF.received = chunks.flatten ∧ bF.received = chunks.flatten := by
  obtain ⟨⟨aF, bF⟩, tr, heq⟩ := tee_nofail_ok chunks ⟨[], 0⟩ ⟨[], 0⟩
  obtain ⟨ha, hb⟩ := tee_success_content noFail noFail none none chunks _ _ _ _ _ h heq
  exact ⟨aF, bF, tr, heq, by simpa using ha, by simpa using hb⟩

theorem tee_completeness_witness :
    (∀ c ∈ ([[1, 2], [3]] : List Bytes), c ≠ []) ∧
    (∃ aF bF tr,
      tee noFail noFail none none (([[1, 2], [3]] : List Bytes).map Except.ok) ⟨[], 0⟩ ⟨[], 0⟩
        = (Except.ok (aF, bF), tr) ∧
      aF.received = ([[1, 2], [3]] : List Bytes).flatten ∧
      bF.received = ([[1, 2], [3]] : List Bytes).flatten) :=
  ⟨by decide, tee_completeness [[1, 2], [3]] (by decide)⟩

/-- C5 — All-or-nothing tee: if a write to either sink fails on a chunk,
the whole call fails with the first observed error (sink `a`'s error when
`a` failed, otherwise sink `b`'s); both writes of the chunk are still
issued (both appear in the trace), and no further chunk is read (the trace
ends with the failing iteration). -/
theorem tee_all_or_nothing (fa fb : Nat → Bytes → Option IoErr) (sa sb : Option IoErr)
    (c : Bytes) (rest : List (Except IoErr Bytes)) (a b : SinkSt)
    (hc : c ≠ [])
    (hfail : (∃ e, writeStep fa a c = Except.error e) ∨
             (∃ e, writeStep fb b c = Except.error e)) :
    ∃ e, tee fa fb sa sb (Except.ok c :: rest) a b
        = (Except.error e, [Ev.read c, Ev.writeA c, Ev.writeB c]) ∧
      (∀ ea, writeStep fa a c = Except.error ea → e = ea) ∧
      (∀ a2 eb, writeStep fa a c = Except.ok a2 →
        writeStep fb b c = Except.error eb → e = eb) := by
  have hc0 : ¬ c.length = 0 := by simpa [List.length_eq_zero] using hc
  rcases h1 : writeStep fa a c with e1 | a2
  · refine ⟨e1, ?_, ?_, ?_⟩
    · simp only [tee, if_neg hc0, h1]
    · intro ea hea
      exact Except.error.inj hea
    · intro a2 eb hok hberr
      exact Except.noConfusion hok
  · rcases h2 : writeStep fb b c with e2 | b2
    · refine ⟨e2, ?_, ?_, ?_⟩
      · simp only [tee, if_neg hc0, h1, h2]
      · intro ea hea
        exact Except.noConfusion hea
      · intro a2' eb hok hberr
        exact Except.error.inj hberr
    · exfalso
      rcases hfail with ⟨e, he⟩ | ⟨e, he⟩
      · rw [h1] at he; exact Except.noConfusion he
      · rw [h2] at he; exact Except.noConfusion he

theorem tee_all_or_nothing_witness :
    (([1] : Bytes) ≠ []) ∧
    ((∃ e, writeStep failASched ⟨[], 0⟩ [1] = Except.error e) ∨
     (∃ e, writeStep noFail ⟨[], 0⟩ [1] = Except.error e)) ∧
    (∃ e, tee failASched noFail none none [Except.ok [1]] ⟨[], 0⟩ ⟨[], 0⟩
        = (Except.error e, [Ev.read [1], Ev.writeA [1], Ev.writeB [1]]) ∧
      (∀ ea, writeStep failASched ⟨[], 0⟩ [1] = Except.error ea → e = ea) ∧
      (∀ a2 eb, writeStep failASched ⟨[], 0⟩ [1] = Except.ok a2 →
        writeStep noFail ⟨[], 0⟩ [1] = Except.error eb → e = eb)) :=
  ⟨by decide, Or.inl ⟨7, rfl⟩,
   tee_all_or_nothing failASched noFail none none [1] [] ⟨[], 0⟩ ⟨[], 0⟩
     (by decide) (Or.inl ⟨7, rfl⟩)⟩

/-- C6 — Tee back-pressure: every chunk a read returns is bounded by the
1024-byte buffer, and at the moment any read is issued, every previously
read chunk has already had its write to sink `a` and its write to sink `b`
issued — at most one chunk is ever in flight. -/
theorem tee_backpressure (fa fb : Nat → Bytes → Option IoErr) (sa sb : Option IoErr)
    (src : List (Except IoErr Bytes)) (a b : SinkSt)
    (hsz : ∀ c : Bytes, Except.ok c ∈ src → c.length ≤ teeBufSize) :
    (∀ c, Ev.read c ∈ (tee fa fb sa sb src a b).2 → c.length ≤ teeBufSize) ∧
    (∀ t₁ c t₂, (tee fa fb sa sb src a b).2 = t₁ ++ Ev.read c :: t₂ →
      countEv isRead t₁ = countEv isWA t₁ ∧ countEv isRead t₁ = countEv isWB t₁) := by
  constructor
  · intro c hmem
    exact hsz c (tee_read_mem_src fa fb sa sb src a b c hmem)
  · exact tee_balanced _ (tee_trace_shape fa fb sa sb src a b)

theorem tee_backpressure_witness :
    (∀ c : Bytes, Except.ok c ∈ ([Except.ok [7]] : List (Except IoErr Bytes)) →
      c.length ≤ teeBufSize) ∧
    ((∀ c, Ev.read c ∈ (tee noFail noFail none none [Except.ok [7]] ⟨[], 0⟩ ⟨[], 0⟩).2 →
        c.length ≤ teeBufSize) ∧
     (∀ t₁ c t₂,
        (tee noFail noFail none none [Except.ok [7]] ⟨[], 0⟩ ⟨[], 0⟩).2
          = t₁ ++ Ev.read c :: t₂ →
        countEv isRead t₁ = countEv isWA t₁ ∧ countEv isRead t₁ = countEv isWB t₁)) :=
  ⟨by intro c hc; simp at hc; subst hc; decide,
   tee_backpressure noFail noFail none none [Except.ok [7]] ⟨[], 0⟩ ⟨[], 0⟩
     (by intro c hc; simp at hc; subst hc; decide)⟩

/-- C9 — Resolver correctness: resolution is the pure function
`resolveCmd`; mode `None` returns the argv unchanged with no extra
environment, each wrapper mode prefixes exactly its wrapper binary with no
extra environment, and the direct vendor render-offload mode returns the
argv unchanged with exactly the three fixed variables. -/
theorem resolver_correct (argv : List String) :
    resolveCmd GpuMode.none argv = (argv, ExtraEnv.none) ∧
    ExtraEnv.pairs ExtraEnv.none = [] ∧
    resolveCmd GpuMode.pvkrun argv = ("pvkrun" :: argv, ExtraEnv.none) ∧
    resolveCmd GpuMode.primusrun argv = ("primusrun" :: argv, ExtraEnv.none) ∧
    resolveCmd GpuMode.optirun argv = ("optirun" :: argv, ExtraEnv.none) ∧
    resolveCmd GpuMode.nvPrimeRun argv = (argv, ExtraEnv.nvPrimeRun) ∧
    ExtraEnv.pairs ExtraEnv.nvPrimeRun =
      [("__NV_PRIME_RENDER_OFFLOAD", "1"),
       ("__VK_LAYER_NV_optimus", "NVIDIA_only"),
       ("__GLX_VENDOR_LIBRARY_NAME", "nvidia")] := by
  exact ⟨rfl, rfl, rfl, rfl, rfl, rfl, rfl⟩

/-- C10 — Default offload mode: when `--gpu` is omitted the effective mode
is `NvPrimeRun`, so the command runs unwrapped but with the three fixed
NVIDIA render-offload variables — not as plain un-offloaded execution
(the extra environment is not the empty `ExtraEnv.none`). -/
theorem default_mode_nvprime (argv : List String) :
    effectiveGpuMode Option.none = GpuMode.nvPrimeRun ∧
    resolveCmd (effectiveGpuMode Option.none) argv = (argv, ExtraEnv.nvPrimeRun) ∧
    ExtraEnv.pairs (resolveCmd (effectiveGpuMode Option.none) argv).2 =
      [("__NV_PRIME_RENDER_OFFLOAD", "1"),
       ("__VK_LAYER_NV_optimus", "NVIDIA_only"),
       ("__GLX_VENDOR_LIBRARY_NAME", "nvidia")] ∧
    (resolveCmd (effectiveGpuMode Option.none) argv).2 ≠ ExtraEnv.none := by
  refine ⟨rfl, rfl, rfl, ?_⟩
  intro h
  exact ExtraEnv.noConfusion h

/-- C8 — Exclusive log creation: the log path is built as the logs
directory joined with `base_name`, an underscore, the RFC3339 timestamp and
the `.log.zstd` extension; opening it with `create_new` fails (with a
distinct error, leaving the filesystem unchanged) when a file of that name
exists, and only creates the file when none exists. -/
theorem log_open_exclusive (home base ts : String) (fs : List String)
    (hex : build_log_filename home base ts Option.none ∈ fs) :
    build_log_filename home base ts Option.none =
      get_logs_dir home ++ "/" ++ (base ++ "_" ++ ts ++ ".log.zstd") ∧
    openCreateNew fs (build_log_filename home base ts Option.none) =
      Except.error eexist ∧
    (∀ fs2 : List String, build_log_filename home base ts Option.none ∉ fs2 →
      openCreateNew fs2 (build_log_filename home base ts Option.none) =
        Except.ok (build_log_filename home base ts Option.none :: fs2)) := by
  refine ⟨rfl, ?_, ?_⟩
  · simp [openCreateNew, hex]
  · intro fs2 hnot
    simp [openCreateNew, hnot]

theorem log_open_exclusive_witness :
    build_log_filename "/h" "g" "T" Option.none ∈ ["/h/games/logs/g_T.log.zstd"] ∧
    (build_log_filename "/h" "g" "T" Option.none =
      get_logs_dir "/h" ++ "/" ++ ("g" ++ "_" ++ "T" ++ ".log.zstd") ∧
    openCreateNew ["/h/games/logs/g_T.log.zstd"]
        (build_log_filename "/h" "g" "T" Option.none) = Except.error eexist ∧
    (∀ fs2 : List String, build_log_filename "/h" "g" "T" Option.none ∉ fs2 →
      openCreateNew fs2 (build_log_filename "/h" "g" "T" Option.none) =
        Except.ok (build_log_filename "/h" "g" "T" Option.none :: fs2))) :=
  ⟨by decide,
   log_open_exclusive "/h" "g" "T" ["/h/games/logs/g_T.log.zstd"] (by decide)⟩

theorem no_read_split (tr t₁ t₂ : List Ev) (c : Bytes)
    (h : tr = t₁ ++ Ev.read c :: t₂) (hnone : ∀ d, Ev.read d ∉ tr) : False :=
  hnone c (read_mem_of_split tr t₁ t₂ c h)

theorem closeW_in_pre (i g : Bytes) (u A2 : List Ev)
    (h : ([Ev.openLog, Ev.wStderr i, Ev.wLog i, Ev.pipeCreate, Ev.dupW, Ev.dupW,
           Ev.spawn, Ev.closeW, Ev.wLog g] : List Ev) = u ++ Ev.closeW :: A2) :
    Ev.spawn ∈ u := by
  have h' : ([Ev.openLog, Ev.wStderr i, Ev.wLog i, Ev.pipeCreate, Ev.dupW, Ev.dupW,
      Ev.spawn] : List Ev) ++ [Ev.closeW, Ev.wLog g] = u ++ Ev.closeW :: A2 := by
    simpa using h
  obtain ⟨B₁, hu, -⟩ := append_split_right _ _ _ _ _ h' (by simp)
  rw [hu]
  simp

theorem countEv_append (p : Ev → Bool) (l m : List Ev) :
    countEv p (l ++ m) = countEv p l + countEv p m := by
  simp [countEv, List.filter_append]

theorem countEv_zero_of_false (p : Ev → Bool) (l : List Ev)
    (h : ∀ e ∈ l, p e = false) : countEv p l = 0 := by
  induction l with
  | nil => simp [countEv]
  | cons e l ih =>
    have h0 := h e (List.mem_cons_self e l)
    have h1 := ih (fun e' he' => h e' (List.mem_cons_of_mem _ he'))
    simp only [countEv, List.filter_cons, h0] at h1 ⊢
    simpa using h1

theorem isShutB_false_of_isRW (e : Ev) (h : isRW e = true) : isShutB e = false := by
  cases e <;> simp [isRW, isRead, isWA, isWB, isShutB] at h ⊢

theorem c2_core (env : RunEnv) (B t₁ t₂ : List Ev) (c : Bytes)
    (hB : ∀ e ∈ B, wDelta e = 0)
    (h : preGS env ++ B = t₁ ++ Ev.read c :: t₂) :
    writeHeld t₁ = 0 ∧ Ev.spawn ∈ t₁ ∧ Ev.closeW ∈ t₁ ∧
    (∀ u v, t₁ = u ++ Ev.closeW :: v → Ev.spawn ∈ u) ∧
    (∀ k : Int, 0 ≤ k → (pipeEofObservable (writeHeld t₁) k ↔ k = 0)) := by
  have hA : ∀ d : Bytes, Ev.read d ∉ preGS env := by
    intro d
    simp [preGS, preEvents]
  obtain ⟨B₁, rfl, hBeq⟩ := append_split_right _ _ _ _ _ h (hA c)
  have hB₁ : ∀ e ∈ B₁, wDelta e = 0 := by
    intro e he
    exact hB e (by rw [hBeq]; exact List.mem_append_left _ he)
  have hw : writeHeld (preGS env ++ B₁) = 0 := by
    rw [writeHeld_append, writeHeld_zero_of_all B₁ hB₁]
    simp [preGS, preEvents, writeHeld, wDelta]
  refine ⟨hw, by simp [preGS, preEvents], by simp [preGS, preEvents], ?_, ?_⟩
  · intro u v huv
    have hnB : Ev.closeW ∉ B₁ := by
      intro hm
      have := hB₁ _ hm
      simp [wDelta] at this
    obtain ⟨A2, hA2⟩ := append_split_left _ _ _ _ _ huv hnB
    have h9 : ([Ev.openLog, Ev.wStderr (bannerBytes env), Ev.wLog (bannerBytes env),
        Ev.pipeCreate, Ev.dupW, Ev.dupW, Ev.spawn, Ev.closeW, Ev.wLog gsBytes] : List Ev)
        = u ++ Ev.closeW :: A2 := by
      simpa [preGS, preEvents] using hA2
    exact closeW_in_pre _ _ _ _ h9
  · intro k hk
    simp only [hw, pipeEofObservable]
    omega

/-- C2 — Pipe closure invariant: in every logging-enabled run, at the
moment any pipe read happens the supervisor holds zero write-end handles
(the spawn has returned, `drop(w)` has happened, every `drop(w)`-close came
after the spawn), so end-of-stream becomes observable exactly when the
child's own handle count reaches zero. -/
theorem supervisor_pipe_closure (env : RunEnv) (t₁ : List Ev) (c : Bytes) (t₂ : List Ev)
    (h : (run_game_with_logs env).trace = t₁ ++ Ev.read c :: t₂) :
    writeHeld t₁ = 0 ∧ Ev.spawn ∈ t₁ ∧ Ev.closeW ∈ t₁ ∧
    (∀ u v, t₁ = u ++ Ev.closeW :: v → Ev.spawn ∈ u) ∧
    (∀ k : Int, 0 ≤ k → (pipeEofObservable (writeHeld t₁) k ↔ k = 0)) := by
  rcases hO : openCreateNew env.existingFiles
      (build_log_filename env.home env.gameName env.nowRfc Option.none) with e0 | fs0
  · simp only [run_game_with_logs.eq_def, hO] at h
    exact (no_read_split _ _ _ _ h (by intro d; simp)).elim
  rcases hA1 : writeStep env.faSched ⟨[], 0⟩ (bannerBytes env) with e1 | a1
  · simp only [run_game_with_logs.eq_def, hO, hA1] at h
    exact (no_read_split _ _ _ _ h (by intro d; simp)).elim
  rcases hB1 : writeStep env.fbSched ⟨[], 0⟩ (bannerBytes env) with e2 | b1
  · simp only [run_game_with_logs.eq_def, hO, hA1, hB1] at h
    exact (no_read_split _ _ _ _ h (by intro d; simp)).elim
  rcases hP : env.pipeRes with _ | e3
  case some =>
    simp only [run_game_with_logs.eq_def, hO, hA1, hB1, hP] at h
    exact (no_read_split _ _ _ _ h (by intro d; simp)).elim
  rcases hS : env.spawnRes with _ | e4
  case some =>
    simp only [run_game_with_logs.eq_def, hO, hA1, hB1, hP, hS] at h
    exact (no_read_split _ _ _ _ h (by intro d; simp)).elim
  rcases hGS : writeStep env.fbSched b1 gsBytes with e5 | b2
  · simp only [run_game_with_logs.eq_def, hO, hA1, hB1, hP, hS, hGS] at h
    exact (no_read_split _ _ _ _ h (by intro d; simp [preGS, preEvents])).elim
  rcases hT : tee env.faSched env.fbSched env.shutARes env.shutBRes env.src a1 b2
    with ⟨res, teeTr⟩
  have htt : TeeTrace teeTr := by
    have := tee_trace_shape env.faSched env.fbSched env.shutARes env.shutBRes env.src a1 b2
    rw [hT] at this
    exact this
  have hz : ∀ e ∈ teeTr, wDelta e = 0 := tee_trace_wdelta teeTr htt
  rcases res with e6 | ⟨aF, bF⟩
  · simp only [run_game_with_logs.eq_def, hO, hA1, hB1, hP, hS, hGS, hT] at h
    exact c2_core env teeTr t₁ t₂ c hz h
  rcases hW : env.waitRes with _ | e7
  case some =>
    simp only [run_game_with_logs.eq_def, hO, hA1, hB1, hP, hS, hGS, hT, hW] at h
    refine c2_core env (teeTr ++ [Ev.waitChild]) t₁ t₂ c ?_ h
    intro e he
    rcases List.mem_append.mp he with he | he
    · exact hz e he
    · simp at he
      simp [he, wDelta]
  case none =>
    simp only [run_game_with_logs.eq_def, hO, hA1, hB1, hP, hS, hGS, hT, hW] at h
    refine c2_core env (teeTr ++ [Ev.waitChild, Ev.dropR, Ev.dropChild]) t₁ t₂ c ?_ h
    intro e he
    rcases List.mem_append.mp he with he | he
    · exact hz e he
    · simp at he
      rcases he with rfl | rfl | rfl <;> simp [wDelta]

theorem supervisor_pipe_closure_witness :
    (run_game_with_logs envW).trace = preW ++ Ev.read [65] :: tailW ∧
    (writeHeld preW = 0 ∧ Ev.spawn ∈ preW ∧ Ev.closeW ∈ preW ∧
     (∀ u v, preW = u ++ Ev.closeW :: v → Ev.spawn ∈ u) ∧
     (∀ k : Int, 0 ≤ k → (pipeEofObservable (writeHeld preW) k ↔ k = 0))) :=
  ⟨rfl, supervisor_pipe_closure envW preW [65] tailW rfl⟩

/-- C4 (amended) — Finalize ordering: in every logging-enabled run that
returns success, the log sink's finalize (`shutB`) happens exactly once,
after every pipe read (that is, after end-of-stream) but before the child
is waited on — not after the wait, as the original claim states. -/
theorem finalize_after_eos_before_wait (env : RunEnv)
    (hok : (run_game_with_logs env).res = Except.ok ()) :
    ∃ t₁ t₂, (run_game_with_logs env).trace = t₁ ++ Ev.shutB :: t₂ ∧
      (∀ d, Ev.read d ∉ t₂) ∧ Ev.waitChild ∈ t₂ ∧
      countEv isShutB (run_game_with_logs env).trace = 1 := by
  rcases hO : openCreateNew env.existingFiles
      (build_log_filename env.home env.gameName env.nowRfc Option.none) with e0 | fs0
  · simp [run_game_with_logs.eq_def, hO] at hok
  rcases hA1 : writeStep env.faSched ⟨[], 0⟩ (bannerBytes env) with e1 | a1
  · simp [run_game_with_logs.eq_def, hO, hA1] at hok
  rcases hB1 : writeStep env.fbSched ⟨[], 0⟩ (bannerBytes env) with e2 | b1
  · simp [run_game_with_logs.eq_def, hO, hA1, hB1] at hok
  rcases hP : env.pipeRes with _ | e3
  case some => simp [run_game_with_logs.eq_def, hO, hA1, hB1, hP] at hok
  rcases hS : env.spawnRes with _ | e4
  case some => simp [run_game_with_logs.eq_def, hO, hA1, hB1, hP, hS] at hok
  rcases hGS : writeStep env.fbSched b1 gsBytes with e5 | b2
  · simp [run_game_with_logs.eq_def, hO, hA1, hB1, hP, hS, hGS] at hok
  rcases hT : tee env.faSched env.fbSched env.shutARes env.shutBRes env.src a1 b2
    with ⟨res, teeTr⟩
  rcases res with e6 | ⟨aF, bF⟩
  · simp [run_game_with_logs.eq_def, hO, hA1, hB1, hP, hS, hGS, hT] at hok
  rcases hW : env.waitRes with _ | e7
  case some =>
    simp [run_game_with_logs.eq_def, hO, hA1, hB1, hP, hS, hGS, hT, hW] at hok
  case none =>
  obtain ⟨body, hbody, hmem⟩ :=
    tee_success_shape env.faSched env.fbSched env.shutARes env.shutBRes env.src a1 b2
      (aF, bF) teeTr hT
  have htr : (run_game_with_logs env).trace
      = preGS env ++ (teeTr ++ [Ev.waitChild, Ev.dropR, Ev.dropChild]) := by
    simp [run_game_with_logs.eq_def, hO, hA1, hB1, hP, hS, hGS, hT, hW]
  have hpre : countEv isShutB (preGS env) = 0 := by
    simp [preGS, preEvents, countEv, isShutB]
  have hb0 : countEv isShutB body = 0 :=
    countEv_zero_of_false _ _ (fun e he => isShutB_false_of_isRW e (hmem e he))
  refine ⟨preGS env ++ (body ++ [Ev.shutA]), [Ev.waitChild, Ev.dropR, Ev.dropChild],
    ?_, ?_, ?_, ?_⟩
  · rw [htr, hbody]
    simp
  · intro d
    simp
  · simp
  · rw [htr, hbody, countEv_append, countEv_append, countEv_append, hpre, hb0]
    simp [countEv, isShutB]

theorem finalize_after_eos_before_wait_witness :
    (run_game_with_logs envW).res = Except.ok () ∧
    (∃ t₁ t₂, (run_game_with_logs envW).trace = t₁ ++ Ev.shutB :: t₂ ∧
      (∀ d, Ev.read d ∉ t₂) ∧ Ev.waitChild ∈ t₂ ∧
      countEv isShutB (run_game_with_logs envW).trace = 1) :=
  ⟨rfl, finalize_after_eos_before_wait envW rfl⟩

/-- C4 (counterexample) — in the concrete successful run `envW` the unique
log-sink finalize (`shutB`) occurs strictly before the `waitChild` event,
so finalize is not performed after the child has been waited on. -/
theorem finalize_before_wait_cex :
    (run_game_with_logs envW).res = Except.ok () ∧
    Ev.shutB ∈ (run_game_with_logs envW).trace ∧
    Ev.waitChild ∈ (run_game_with_logs envW).trace ∧
    countEv isShutB (run_game_with_logs envW).trace = 1 ∧
    posOf Ev.shutB (run_game_with_logs envW).trace <
      posOf Ev.waitChild (run_game_with_logs envW).trace :=
  ⟨rfl, by decide, by decide, by decide, by decide⟩

/-- C3 — evaluation at the failing input: in the run `envErr`, where the
log sink's first relayed write fails, `run_game_with_logs` returns that
error and the log sink's finalize (`shutB`) is executed zero times — not
exactly once as the claim requires. -/
theorem log_finalize_skipped_on_error :
    (run_game_with_logs envErr).res = Except.error 5 ∧
    countEv isShutB (run_game_with_logs envErr).trace = 0 :=
  ⟨rfl, rfl⟩

/-- C7 (amended) — Log artifact content: for a successful logging-enabled
run, the finalized log decompresses to exactly the banner, then the line
`Game started.\n`, then the child's interleaved output stream, with no
truncation (finalize ran exactly once, so the stream is valid). -/
theorem log_content_roundtrip (env : RunEnv) (chunks : List Bytes)
    (hsrc : env.src = chunks.map Except.ok)
    (hne : ∀ c ∈ chunks, c ≠ [])
    (hok : (run_game_with_logs env).res = Except.ok ()) :
    ∃ aF bF, (run_game_with_logs env).sinks = Option.some (aF, bF) ∧
      bF.received = bannerBytes env ++ gsBytes ++ chunks.flatten ∧
      countEv isShutB (run_game_with_logs env).trace = 1 ∧
      zstdDecompress (countEv isShutB (run_game_with_logs env).trace == 1) bF.received
        = Option.some (bannerBytes env ++ gsBytes ++ chunks.flatten) := by
  rcases hO : openCreateNew env.existingFiles
      (build_log_filename env.home env.gameName env.nowRfc Option.none) with e0 | fs0
  · simp [run_game_with_logs.eq_def, hO] at hok
  rcases hA1 : writeStep env.faSched ⟨[], 0⟩ (bannerBytes env) with e1 | a1
  · simp [run_game_with_logs.eq_def, hO, hA1] at hok
  rcases hB1 : writeStep env.fbSched ⟨[], 0⟩ (bannerBytes env) with e2 | b1
  · simp [run_game_with_logs.eq_def, hO, hA1, hB1] at hok
  rcases hP : env.pipeRes with _ | e3
  case some => simp [run_game_with_logs.eq_def, hO, hA1, hB1, hP] at hok
  rcases hS : env.spawnRes with _ | e4
  case some => simp [run_game_with_logs.eq_def, hO, hA1, hB1, hP, hS] at hok
  rcases hGS : writeStep env.fbSched b1 gsBytes with e5 | b2
  · simp [run_game_with_logs.eq_def, hO, hA1, hB1, hP, hS, hGS] at hok
  rcases hT : tee env.faSched env.fbSched env.shutARes env.shutBRes env.src a1 b2
    with ⟨res, teeTr⟩
  rcases res with e6 | ⟨aF, bF⟩
  · simp [run_game_with_logs.eq_def, hO, hA1, hB1, hP, hS, hGS, hT] at hok
  rcases hW : env.waitRes with _ | e7
  case some =>
    simp [run_game_with_logs.eq_def, hO, hA1, hB1, hP, hS, hGS, hT, hW] at hok
  case none =>
  have hb1 := writeStep_ok_eq _ _ _ _ hB1
  have hb2 := writeStep_ok_eq _ _ _ _ hGS
  have hT' := hT
  rw [hsrc] at hT'
  obtain ⟨-, hbf⟩ := tee_success_content env.faSched env.fbSched env.shutARes env.shutBRes
    chunks a1 b2 aF bF teeTr hne hT'
  have hsinks : (run_game_with_logs env).sinks = Option.some (aF, bF) := by
    simp [run_game_with_logs.eq_def, hO, hA1, hB1, hP, hS, hGS, hT, hW]
  have hrecv : bF.received = bannerBytes env ++ gsBytes ++ chunks.flatten := by
    subst hb2 hb1
    simpa using hbf
  obtain ⟨body, hbody, hmem⟩ :=
    tee_success_shape env.faSched env.fbSched env.shutARes env.shutBRes env.src a1 b2
      (aF, bF) teeTr hT
  have htr : (run_game_with_logs env).trace
      = preGS env ++ (teeTr ++ [Ev.waitChild, Ev.dropR, Ev.dropChild]) := by
    simp [run_game_with_logs.eq_def, hO, hA1, hB1, hP, hS, hGS, hT, hW]
  have hpre : countEv isShutB (preGS env) = 0 := by
    simp [preGS, preEvents, countEv, isShutB]
  have hb0 : countEv isShutB body = 0 :=
    countEv_zero_of_false _ _ (fun e he => isShutB_false_of_isRW e (hmem e he))
  have hcount : countEv isShutB (run_game_with_logs env).trace = 1 := by
    rw [htr, hbody, countEv_append, countEv_append, countEv_append, hpre, hb0]
    simp [countEv, isShutB]
  exact ⟨aF, bF, hsinks, hrecv, hcount, by simp [hcount, zstdDecompress, hrecv]⟩

theorem log_content_roundtrip_witness :
    envW.src = ([[65]] : List Bytes).map Except.ok ∧
    (∀ c ∈ ([[65]] : List Bytes), c ≠ []) ∧
    (run_game_with_logs envW).res = Except.ok () ∧
    (∃ aF bF, (run_game_with_logs envW).sinks = Option.some (aF, bF) ∧
      bF.received = bannerBytes envW ++ gsBytes ++ ([[65]] : List Bytes).flatten ∧
      countEv isShutB (run_game_with_logs envW).trace = 1 ∧
      zstdDecompress (countEv isShutB (run_game_with_logs envW).trace == 1) bF.received
        = Option.some (bannerBytes envW ++ gsBytes ++ ([[65]] : List Bytes).flatten)) :=
  ⟨rfl, by decide, rfl, log_content_roundtrip envW [[65]] rfl (by decide) rfl⟩

/-- C7 (counterexample) — in the concrete successful run `envW` the log
sink receives the banner, then the `Game started.\n` line, then the child
byte `A`; it does not equal the banner immediately followed by the child
stream, because the `Game started.\n` line is interposed. -/
theorem log_content_cex :
    (run_game_with_logs envW).res = Except.ok () ∧
    logReceived (run_game_with_logs envW) = bannerBytes envW ++ gsBytes ++ [65] ∧
    logReceived (run_game_with_logs envW) ≠ bannerBytes envW ++ [65] :=
  ⟨rfl, rfl, by decide⟩
